import Mathlib

/-!
# Pairwise association-rules pipeline: a shallow embedding

This file embeds the core of the `Instacart_association` notebook: the
helper functions `freq`, `order_count`, `get_item_pairs` and the main
`association_rules` function, and proves the testable properties stated
for them.

The order–item stream (`pandas` Series with `order_id` index and
`item_id` values) is modelled as a `List (ℕ × ℕ)` of rows in stream
order.  Counting mappings are modelled by their lookup functions
(`List.count` over the relevant column) together with their key sets
(`List.dedup` of the column).  Percentages are computed in `ℚ`, the
exact counterpart of the notebook's floating-point arithmetic.
-/

namespace Instacart

/-- A row of the order–item stream: `(order_id, item_id)`. -/
abbrev Row : Type := ℕ × ℕ

/-- `freq` applied to the item column of the stream, read at key `i`:
the number of rows whose `item_id` is `i`. -/
def itemFreq (s : List Row) (i : ℕ) : ℕ :=
  (s.map Prod.snd).count i

/-- The key set of `freq` on the item column: the distinct items of the
stream. -/
def itemKeys (s : List Row) : List ℕ :=
  (s.map Prod.snd).dedup

/-- `order_count(order_item) = len(set(order_item.index))`: the number of
distinct orders in the stream. -/
def order_count (s : List Row) : ℕ :=
  (s.map Prod.fst).dedup.length

/-- `item_stats['support'] = item_stats['freq'] / order_count(order_item) * 100`. -/
def itemSupport (s : List Row) (i : ℕ) : ℚ :=
  (itemFreq s i : ℚ) / (order_count s : ℚ) * 100

/-- `qualifying_items = item_stats[item_stats['support'] >= min_support].index`. -/
def qualifyingItems (s : List Row) (ms : ℚ) : List ℕ :=
  (itemKeys s).filter (fun i => ms ≤ itemSupport s i)

/-- `order_item = order_item[order_item.isin(qualifying_items)]`:
stage-A item pruning. -/
def pruneItems (s : List Row) (ms : ℚ) : List Row :=
  s.filter (fun r => r.2 ∈ qualifyingItems s ms)

/-- `order_size = freq(order_item.index)` read at order id `o`: the number
of rows of order `o`. -/
def order_size (s : List Row) (o : ℕ) : ℕ :=
  (s.map Prod.fst).count o

/-- `qualifying_orders = order_size[order_size >= 2].index`. -/
def qualifyingOrders (s : List Row) : List ℕ :=
  ((s.map Prod.fst).dedup).filter (fun o => 2 ≤ order_size s o)

/-- `order_item = order_item[order_item.index.isin(qualifying_orders)]`:
stage-A.5 order-size pruning. -/
def pruneOrders (s : List Row) : List Row :=
  s.filter (fun r => r.1 ∈ qualifyingOrders s)

/-- `itertools.groupby(order_item, lambda x: x[0])`: split the stream into
maximal runs of rows sharing an `order_id`, each run keeping its item list
(`item_list = [item[1] for item in order_object]`). -/
def groupRuns : List Row → List (ℕ × List ℕ)
  | [] => []
  | (o, i) :: rest =>
    match groupRuns rest with
    | [] => [(o, [i])]
    | (o', l) :: gs =>
      if o = o' then (o, i :: l) :: gs else (o, [i]) :: (o', l) :: gs

/-- `itertools.combinations(item_list, 2)` in emission order: for positions
`j < k` the pair `(item_list[j], item_list[k])`, ordered lexicographically
by position. -/
def pairsOf : List ℕ → List (ℕ × ℕ)
  | [] => []
  | x :: xs => xs.map (fun y => (x, y)) ++ pairsOf xs

/-- `get_item_pairs(order_item)`: for each consecutive order run, yield the
2-combinations of its item list, one pair at a time. -/
def get_item_pairs (s : List Row) : List (ℕ × ℕ) :=
  (groupRuns s).flatMap (fun g => pairsOf g.2)

/-- `freq(item_pair_gen)` read at pair key `p`: the number of times the
generator yields `p`. -/
def pairFreq (s : List Row) (p : ℕ × ℕ) : ℕ :=
  (get_item_pairs s).count p

/-- The key set of the pair-frequency mapping: the distinct yielded pairs. -/
def pairKeys (s : List Row) : List (ℕ × ℕ) :=
  (get_item_pairs s).dedup

/-- `item_pairs['supportAB'] = item_pairs['freqAB'] / len(qualifying_orders) * 100`,
with `q` the retained `len(qualifying_orders)`. -/
def pairSupport (s : List Row) (q : ℕ) (p : ℕ × ℕ) : ℚ :=
  (pairFreq s p : ℚ) / (q : ℚ) * 100

/-- `item_pairs = item_pairs[item_pairs['supportAB'] >= min_support]`:
stage-B pair pruning. -/
def prunedPairKeys (s : List Row) (q : ℕ) (ms : ℚ) : List (ℕ × ℕ) :=
  (pairKeys s).filter (fun p => ms ≤ pairSupport s q p)

/-- One output rule record of `association_rules`. -/
structure Rule where
  item_A : ℕ
  item_B : ℕ
  freqAB : ℕ
  supportAB : ℚ
  freqA : ℕ
  supportA : ℚ
  freqB : ℕ
  supportB : ℚ
  confidenceAtoB : ℚ
  confidenceBtoA : ℚ
  lift : ℚ
  deriving Repr, DecidableEq

/-- `item_pairs['lift'] = item_pairs['supportAB'] / (item_pairs['supportA'] * item_pairs['supportB'])`. -/
def liftMetric (sab sa sb : ℚ) : ℚ :=
  sab / (sa * sb)

/-- The rule record assembled for pair key `p` from the pair statistics and
the re-derived item statistics of the pruned stream `s`. -/
def mkRule (s : List Row) (q : ℕ) (p : ℕ × ℕ) : Rule :=
  { item_A := p.1
    item_B := p.2
    freqAB := pairFreq s p
    supportAB := pairSupport s q p
    freqA := itemFreq s p.1
    supportA := itemSupport s p.1
    freqB := itemFreq s p.2
    supportB := itemSupport s p.2
    confidenceAtoB := pairSupport s q p / itemSupport s p.1
    confidenceBtoA := pairSupport s q p / itemSupport s p.2
    lift := liftMetric (pairSupport s q p) (itemSupport s p.1) (itemSupport s p.2) }

/-- `merge_item_stats`: inner-join the pruned pair table with the re-derived
item statistics on `item_A` and on `item_B`; a pair survives the join only
if both members are keys of `item_stats`. -/
def merge_item_stats (s : List Row) (q : ℕ) (ps : List (ℕ × ℕ)) : List Rule :=
  (ps.filter (fun p => p.1 ∈ itemKeys s ∧ p.2 ∈ itemKeys s)).map (mkRule s q)

/-- `item_pairs.sort_values('lift', ascending=False)`. -/
def sortByLiftDesc (rs : List Rule) : List Rule :=
  rs.mergeSort (fun a b => b.lift ≤ a.lift)

/-- `association_rules(order_item, min_support)`: the full pipeline. -/
def association_rules (s : List Row) (ms : ℚ) : List Rule :=
  let s1 := pruneItems s ms
  let q := (qualifyingOrders s1).length
  let s2 := pruneOrders s1
  sortByLiftDesc (merge_item_stats s2 q (prunedPairKeys s2 q ms))

/-- The stream surviving stage A and stage A.5, as the pipeline builds it. -/
def filteredStream (s : List Row) (ms : ℚ) : List Row :=
  pruneOrders (pruneItems s ms)

/-- A stream is grouped when no order id occurs in two different runs:
all rows of one order are contiguous. -/
def Grouped (s : List Row) : Prop :=
  ((groupRuns s).map Prod.fst).Nodup

instance (s : List Row) : Decidable (Grouped s) :=
  inferInstanceAs (Decidable (((groupRuns s).map Prod.fst).Nodup))

/-- `len(qualifying_orders)`: the denominator retained for pair support. -/
def qualifyingCount (s : List Row) (ms : ℚ) : ℕ :=
  (qualifyingOrders (pruneItems s ms)).length

/-- The reset_index + rename + merge steps of the source with the pandas
error path made explicit.  A nonempty counted-pair Series (built from a
Counter whose keys are tuples) carries a MultiIndex, so reset_index
produces the level_0 and level_1 columns that are renamed to item_A and
item_B, and the merge proceeds even when the stage-B filter left no rows.
But when the counted-pair mapping has no keys at all, the Series carries
a plain empty Index, reset_index produces no such columns, and the merge
on item_A raises KeyError; `none` models that exception.  `counted` is
the key set of the counted-pair mapping before stage B, `ps` the keys
surviving stage B. -/
def merge_item_statsE (s : List Row) (q : ℕ) (counted : List (ℕ × ℕ))
    (ps : List (ℕ × ℕ)) : Option (List Rule) :=
  if counted = [] then none else some (merge_item_stats s q ps)

/-- `association_rules` with the error path of the merge step preserved:
the pipeline raises (returns `none`) exactly when the generator yields no
pair at all, and otherwise returns the rule records. -/
def association_rulesE (s : List Row) (ms : ℚ) : Option (List Rule) :=
  let s2 := filteredStream s ms
  let q := qualifyingCount s ms
  (merge_item_statsE s2 q (pairKeys s2) (prunedPairKeys s2 q ms)).map sortByLiftDesc

/-- One step of `collections.Counter`: increment the tally of key `k`,
inserting the key with tally 1 when absent. -/
def bump {K : Type} [DecidableEq K] : List (K × ℕ) → K → List (K × ℕ)
  | [], k => [(k, 1)]
  | (j, n) :: m, k => if k = j then (j, n + 1) :: m else (j, n) :: bump m k

/-- The `Counter(iterable)` branch of `freq`: fold the key sequence into a
tally list, one key at a time. -/
def counterOf {K : Type} [DecidableEq K] (l : List K) : List (K × ℕ) :=
  l.foldl bump []

/-- The `value_counts()` branch of `freq`: one entry per distinct key with
its occurrence count, presented sorted by count descending. -/
def value_counts {K : Type} [DecidableEq K] (l : List K) : List (K × ℕ) :=
  (l.dedup.map (fun k => (k, l.count k))).mergeSort (fun a b => decide (b.2 ≤ a.2))

/-- Reading a tally list at key `k`: the total tally recorded for `k`. -/
def lookupCount {K : Type} [DecidableEq K] (m : List (K × ℕ)) (k : K) : ℕ :=
  ((m.filter (fun e => e.1 = k)).map Prod.snd).sum

/-- The literal example of the design document: orders
1:(apple 1, egg 2, milk 3) and 2:(egg 2, milk 3). -/
def sampleStream : List Row := [(1, 1), (1, 2), (1, 3), (2, 2), (2, 3)]

/-- A single order holding the two items 5 and 7. -/
def tinyStream : List Row := [(1, 5), (1, 7)]

/-- Two orders holding the same two items listed in opposite order. -/
def mixedStream : List Row := [(1, 5), (1, 7), (2, 7), (2, 5)]

/-- A single order holding a single item. -/
def singleStream : List Row := [(1, 1)]

/-- Three two-item orders forming a triangle: every item appears twice
but every pair appears only once, so a threshold between the two support
levels prunes all pairs while keeping all items. -/
def triangleStream : List Row := [(1, 1), (1, 2), (2, 1), (2, 3), (3, 2), (3, 3)]

/-! ## Structural lemmas about the generator -/

theorem groupRuns_flatMap (s : List Row) :
    (groupRuns s).flatMap Prod.snd = s.map Prod.snd := by
  induction s with
  | nil => rfl
  | cons r rest ih =>
    obtain ⟨o, i⟩ := r
    rw [List.map_cons, ← ih]
    simp only [groupRuns]
    cases hgr : groupRuns rest with
    | nil => simp [hgr]
    | cons g gs =>
      obtain ⟨o', l⟩ := g
      by_cases ho : o = o' <;> simp [hgr, ho]

theorem mem_item_of_mem_groupRuns {s : List Row} {g : ℕ × List ℕ}
    (hg : g ∈ groupRuns s) {i : ℕ} (hi : i ∈ g.2) : i ∈ s.map Prod.snd := by
  rw [← groupRuns_flatMap]
  exact List.mem_flatMap.mpr ⟨g, hg, hi⟩

theorem mem_of_mem_pairsOf :
    ∀ {l : List ℕ} {a b : ℕ}, (a, b) ∈ pairsOf l → a ∈ l ∧ b ∈ l := by
  intro l
  induction l with
  | nil => intro a b h; simp [pairsOf] at h
  | cons x xs ih =>
    intro a b h
    simp only [pairsOf, List.mem_append, List.mem_map] at h
    rcases h with ⟨y, hy, he⟩ | h
    · obtain ⟨rfl, rfl⟩ := Prod.mk.injEq .. ▸ he
      exact ⟨List.mem_cons_self .., List.mem_cons_of_mem _ hy⟩
    · exact ⟨List.mem_cons_of_mem _ (ih h).1, List.mem_cons_of_mem _ (ih h).2⟩

theorem length_pairsOf (l : List ℕ) : (pairsOf l).length = l.length.choose 2 := by
  induction l with
  | nil => rfl
  | cons x xs ih =>
    simp only [pairsOf, List.length_append, List.length_map, ih, List.length_cons]
    rw [Nat.choose_succ_succ xs.length 1, Nat.choose_one_right]

theorem pairsOf_eq_nil_of_short {l : List ℕ} (h : l.length ≤ 1) : pairsOf l = [] := by
  match l, h with
  | [], _ => rfl
  | [x], _ => rfl

theorem lt_of_mem_pairsOf_sorted :
    ∀ {l : List ℕ}, l.Sorted (· < ·) → ∀ {a b : ℕ}, (a, b) ∈ pairsOf l → a < b := by
  intro l
  induction l with
  | nil => intro _ a b h; simp [pairsOf] at h
  | cons x xs ih =>
    intro hs a b h
    rw [List.sorted_cons] at hs
    simp only [pairsOf, List.mem_append, List.mem_map] at h
    rcases h with ⟨y, hy, he⟩ | h
    · obtain ⟨rfl, rfl⟩ := Prod.mk.injEq .. ▸ he
      exact hs.1 _ hy
    · exact ih hs.2 h

theorem mem_itemKeys_of_mem_pairKeys {s : List Row} {p : ℕ × ℕ}
    (hp : p ∈ pairKeys s) : p.1 ∈ itemKeys s ∧ p.2 ∈ itemKeys s := by
  obtain ⟨g, hg, hm⟩ := List.mem_flatMap.mp (List.mem_dedup.mp hp)
  obtain ⟨a, b⟩ := p
  obtain ⟨h1, h2⟩ := mem_of_mem_pairsOf hm
  exact ⟨List.mem_dedup.mpr (mem_item_of_mem_groupRuns hg h1),
    List.mem_dedup.mpr (mem_item_of_mem_groupRuns hg h2)⟩

/-! ## Support positivity and denominator lemmas -/

theorem itemFreq_pos_of_mem_itemKeys {s : List Row} {i : ℕ} (h : i ∈ itemKeys s) :
    0 < itemFreq s i :=
  List.count_pos_iff.mpr (List.mem_dedup.mp h)

theorem order_count_pos {s : List Row} (h : s ≠ []) : 0 < order_count s := by
  unfold order_count
  rcases s with _ | ⟨r, t⟩
  · exact absurd rfl h
  · have hm : r.1 ∈ ((r :: t).map Prod.fst).dedup := List.mem_dedup.mpr (by simp)
    exact List.length_pos.mpr (List.ne_nil_of_mem hm)

theorem itemSupport_pos {s : List Row} {i : ℕ} (h : i ∈ itemKeys s) :
    0 < itemSupport s i := by
  have hne : s ≠ [] := by
    rintro rfl
    simp [itemKeys] at h
  have h1 : (0 : ℚ) < (itemFreq s i : ℚ) := by
    exact_mod_cast itemFreq_pos_of_mem_itemKeys h
  have h2 : (0 : ℚ) < (order_count s : ℚ) := by
    exact_mod_cast order_count_pos hne
  exact mul_pos (div_pos h1 h2) (by norm_num)

theorem mem_fst_pruneOrders {s1 : List Row} {o : ℕ} :
    o ∈ (pruneOrders s1).map Prod.fst ↔ o ∈ qualifyingOrders s1 := by
  constructor
  · intro h
    obtain ⟨r, hr, rfl⟩ := List.mem_map.mp h
    have hf := List.mem_filter.mp hr
    exact of_decide_eq_true hf.2
  · intro h
    have ho : o ∈ s1.map Prod.fst := by
      have hf := List.mem_filter.mp h
      exact List.mem_dedup.mp hf.1
    obtain ⟨r, hr, hre⟩ := List.mem_map.mp ho
    refine List.mem_map.mpr ⟨r, List.mem_filter.mpr ⟨hr, ?_⟩, hre⟩
    exact decide_eq_true (hre ▸ h)

theorem order_count_pruneOrders (s1 : List Row) :
    order_count (pruneOrders s1) = (qualifyingOrders s1).length := by
  unfold order_count
  have h1 : ((pruneOrders s1).map Prod.fst).dedup.Nodup := List.nodup_dedup _
  have h2 : (qualifyingOrders s1).Nodup := (List.nodup_dedup _).filter _
  refine List.Perm.length_eq ((List.perm_ext_iff_of_nodup h1 h2).mpr ?_)
  intro o
  rw [List.mem_dedup]
  exact mem_fst_pruneOrders

/-! ## Shape of the pipeline output -/

theorem mem_prunedPairKeys {s : List Row} {q : ℕ} {ms : ℚ} {p : ℕ × ℕ} :
    p ∈ prunedPairKeys s q ms ↔ p ∈ pairKeys s ∧ ms ≤ pairSupport s q p := by
  simp [prunedPairKeys, List.mem_filter]

theorem mem_sortByLiftDesc {rs : List Rule} {r : Rule} :
    r ∈ sortByLiftDesc rs ↔ r ∈ rs :=
  (List.mergeSort_perm rs _).mem_iff

theorem sortByLiftDesc_sorted (rs : List Rule) :
    (sortByLiftDesc rs).Sorted (fun a b => b.lift ≤ a.lift) := by
  have h := @List.sorted_mergeSort Rule (fun a b => decide (b.lift ≤ a.lift))
      (fun a b c hab hbc => by
        simp only [decide_eq_true_eq] at *
        exact le_trans hbc hab)
      (fun a b => by
        simp only [Bool.or_eq_true, decide_eq_true_eq]
        exact le_total b.lift a.lift) rs
  exact h.imp (fun hab => of_decide_eq_true hab)

theorem association_rules_eq (s : List Row) (ms : ℚ) :
    association_rules s ms =
      sortByLiftDesc (merge_item_stats (filteredStream s ms) (qualifyingCount s ms)
        (prunedPairKeys (filteredStream s ms) (qualifyingCount s ms) ms)) := rfl

theorem mem_association_rules {s : List Row} {ms : ℚ} {r : Rule} :
    r ∈ association_rules s ms ↔
      ∃ p ∈ prunedPairKeys (filteredStream s ms) (qualifyingCount s ms) ms,
        r = mkRule (filteredStream s ms) (qualifyingCount s ms) p := by
  rw [association_rules_eq, mem_sortByLiftDesc]
  unfold merge_item_stats
  simp only [List.mem_map, List.mem_filter, decide_eq_true_eq]
  constructor
  · rintro ⟨p, ⟨hp, _⟩, rfl⟩
    exact ⟨p, hp, rfl⟩
  · rintro ⟨p, hp, rfl⟩
    have hk := mem_itemKeys_of_mem_pairKeys (mem_prunedPairKeys.mp hp).1
    exact ⟨p, ⟨hp, hk⟩, rfl⟩

/-! ## The two counting branches of freq -/

theorem lookupCount_nil {K : Type} [DecidableEq K] (k : K) :
    lookupCount ([] : List (K × ℕ)) k = 0 := rfl

theorem lookupCount_cons {K : Type} [DecidableEq K] (j : K) (n : ℕ)
    (m : List (K × ℕ)) (k : K) :
    lookupCount ((j, n) :: m) k = (if j = k then n else 0) + lookupCount m k := by
  unfold lookupCount
  by_cases h : j = k <;> simp [List.filter_cons, h]

theorem lookupCount_bump {K : Type} [DecidableEq K] (m : List (K × ℕ)) (k j : K) :
    lookupCount (bump m k) j = lookupCount m j + (if k = j then 1 else 0) := by
  induction m with
  | nil =>
    rw [bump, lookupCount_cons, lookupCount_nil]
    omega
  | cons e m ih =>
    obtain ⟨j', n⟩ := e
    by_cases hk : k = j'
    · subst hk
      rw [bump, if_pos rfl, lookupCount_cons, lookupCount_cons]
      by_cases hj : k = j <;> simp [hj] <;> omega
    · rw [bump, if_neg hk, lookupCount_cons, lookupCount_cons, ih]
      omega

theorem lookupCount_foldl {K : Type} [DecidableEq K] :
    ∀ (l : List K) (m : List (K × ℕ)) (j : K),
      lookupCount (l.foldl bump m) j = lookupCount m j + l.count j := by
  intro l
  induction l with
  | nil => intro m j; simp
  | cons x xs ih =>
    intro m j
    rw [List.foldl_cons, ih, lookupCount_bump, List.count_cons]
    by_cases h : x = j <;> simp [h] <;> omega

theorem lookupCount_counterOf {K : Type} [DecidableEq K] (l : List K) (k : K) :
    lookupCount (counterOf l) k = l.count k := by
  unfold counterOf
  rw [lookupCount_foldl, lookupCount_nil, Nat.zero_add]

theorem lookupCount_nodup_map {K : Type} [DecidableEq K] (f : K → ℕ) (k : K) :
    ∀ {m : List K}, m.Nodup →
      lookupCount (m.map (fun x => (x, f x))) k = if k ∈ m then f k else 0 := by
  intro m
  induction m with
  | nil => intro _; simp [lookupCount]
  | cons x xs ih =>
    intro hn
    rw [List.map_cons, lookupCount_cons, ih (List.nodup_cons.mp hn).2]
    by_cases hx : x = k
    · subst hx
      have hnot : x ∉ xs := (List.nodup_cons.mp hn).1
      simp [hnot]
    · simp [hx, List.mem_cons, Ne.symm hx]

theorem lookupCount_perm {K : Type} [DecidableEq K] {m m' : List (K × ℕ)}
    (h : m.Perm m') (k : K) : lookupCount m k = lookupCount m' k :=
  List.Perm.sum_eq (List.Perm.map _ (List.Perm.filter _ h))

theorem lookupCount_value_counts {K : Type} [DecidableEq K] (l : List K) (k : K) :
    lookupCount (value_counts l) k = l.count k := by
  have h1 := lookupCount_perm
    (List.mergeSort_perm (l.dedup.map (fun x => (x, l.count x)))
      (fun a b => decide (b.2 ≤ a.2))) k
  rw [value_counts, h1, lookupCount_nodup_map _ _ (List.nodup_dedup l)]
  by_cases h : k ∈ l
  · simp [List.mem_dedup, h]
  · simp [List.mem_dedup, h, List.count_eq_zero.mpr h]

/-! ## Concrete evaluations of the pipeline on the small streams -/

theorem tiny_support5 : itemSupport tinyStream 5 = 100 := by
  have h1 : itemFreq tinyStream 5 = 1 := by decide
  have h2 : order_count tinyStream = 1 := by decide
  rw [itemSupport, h1, h2]
  norm_num

theorem tiny_support7 : itemSupport tinyStream 7 = 100 := by
  have h1 : itemFreq tinyStream 7 = 1 := by decide
  have h2 : order_count tinyStream = 1 := by decide
  rw [itemSupport, h1, h2]
  norm_num

theorem tiny_qualItems : qualifyingItems tinyStream 100 = [5, 7] := by
  have hk : itemKeys tinyStream = [5, 7] := by decide
  rw [qualifyingItems, hk]
  simp [List.filter_cons, tiny_support5, tiny_support7]

theorem tiny_pruneItems : pruneItems tinyStream 100 = tinyStream := by
  simp only [pruneItems, tiny_qualItems]
  decide

theorem tiny_filtered : filteredStream tinyStream 100 = tinyStream := by
  rw [filteredStream, tiny_pruneItems]
  decide

theorem tiny_qc : qualifyingCount tinyStream 100 = 1 := by
  rw [qualifyingCount, tiny_pruneItems]
  decide

theorem tiny_pairSupport : pairSupport tinyStream 1 (5, 7) = 100 := by
  have h : pairFreq tinyStream (5, 7) = 1 := by decide
  rw [pairSupport, h]
  norm_num

theorem tiny_pruned : prunedPairKeys tinyStream 1 100 = [(5, 7)] := by
  have hk : pairKeys tinyStream = [(5, 7)] := by decide
  rw [prunedPairKeys, hk]
  simp [List.filter_cons, tiny_pairSupport]

theorem tiny_rules : association_rules tinyStream 100 = [mkRule tinyStream 1 (5, 7)] := by
  rw [association_rules_eq, tiny_filtered, tiny_qc, tiny_pruned]
  have hf : ([((5 : ℕ), (7 : ℕ))].filter
      (fun p => decide (p.1 ∈ itemKeys tinyStream ∧ p.2 ∈ itemKeys tinyStream))) =
      [(5, 7)] := by decide
  rw [merge_item_stats, hf, List.map_cons, List.map_nil, sortByLiftDesc,
    List.mergeSort_singleton]

theorem single_support1 : itemSupport singleStream 1 = 100 := by
  have h1 : itemFreq singleStream 1 = 1 := by decide
  have h2 : order_count singleStream = 1 := by decide
  rw [itemSupport, h1, h2]
  norm_num

theorem single_pruneItems : pruneItems singleStream 0 = singleStream := by
  have hk : itemKeys singleStream = [1] := by decide
  have hq : qualifyingItems singleStream 0 = [1] := by
    rw [qualifyingItems, hk]
    simp [List.filter_cons, single_support1]
  simp only [pruneItems, hq]
  decide

theorem single_filtered : filteredStream singleStream 0 = [] := by
  rw [filteredStream, single_pruneItems]
  decide

theorem tri_support1 : itemSupport triangleStream 1 = 200 / 3 := by
  have h1 : itemFreq triangleStream 1 = 2 := by decide
  have h2 : order_count triangleStream = 3 := by decide
  rw [itemSupport, h1, h2]
  norm_num

theorem tri_support2 : itemSupport triangleStream 2 = 200 / 3 := by
  have h1 : itemFreq triangleStream 2 = 2 := by decide
  have h2 : order_count triangleStream = 3 := by decide
  rw [itemSupport, h1, h2]
  norm_num

theorem tri_support3 : itemSupport triangleStream 3 = 200 / 3 := by
  have h1 : itemFreq triangleStream 3 = 2 := by decide
  have h2 : order_count triangleStream = 3 := by decide
  rw [itemSupport, h1, h2]
  norm_num

theorem tri_qualItems : qualifyingItems triangleStream 60 = [1, 2, 3] := by
  have hk : itemKeys triangleStream = [1, 2, 3] := by decide
  rw [qualifyingItems, hk]
  norm_num [List.filter_cons, tri_support1, tri_support2, tri_support3]

theorem tri_pruneItems : pruneItems triangleStream 60 = triangleStream := by
  simp only [pruneItems, tri_qualItems]
  decide

theorem tri_filtered : filteredStream triangleStream 60 = triangleStream := by
  rw [filteredStream, tri_pruneItems]
  decide

theorem tri_qc : qualifyingCount triangleStream 60 = 3 := by
  rw [qualifyingCount, tri_pruneItems]
  decide

theorem tri_pruned : prunedPairKeys triangleStream 3 60 = [] := by
  have hk : pairKeys triangleStream = [(1, 2), (1, 3), (2, 3)] := by decide
  have h12 : pairFreq triangleStream (1, 2) = 1 := by decide
  have h13 : pairFreq triangleStream (1, 3) = 1 := by decide
  have h23 : pairFreq triangleStream (2, 3) = 1 := by decide
  rw [prunedPairKeys, hk]
  norm_num [List.filter_cons, pairSupport, h12, h13, h23]

/-! ## The claims -/

/-- C1, counterexample: on the grouped stream whose order 1 lists items as
(5, 7) and whose order 2 lists the same two items as (7, 5), the counted
pair mapping holds both counting keys (5, 7) and (7, 5): the pair
generator imposes no canonical ordering of the two members. -/
theorem c1_counterexample :
    Grouped mixedStream ∧
      (5, 7) ∈ pairKeys mixedStream ∧ (7, 5) ∈ pairKeys mixedStream := by
  refine ⟨by decide, by decide, by decide⟩

/-- C1, amended: the pair generator emits each pair in the order its two
members occur within the order run; when every order lists its items
strictly ascending by item id (one fixed canonical order for the whole
stream), no unordered pair occurs under both orderings (A, B) and (B, A)
among the counting keys. -/
theorem c1_canonical_of_sorted (s : List Row)
    (h : ∀ g ∈ groupRuns s, g.2.Sorted (· < ·)) (a b : ℕ)
    (hab : (a, b) ∈ pairKeys s) : (b, a) ∉ pairKeys s := by
  intro hba
  obtain ⟨g, hg, hm⟩ := List.mem_flatMap.mp (List.mem_dedup.mp hab)
  obtain ⟨g', hg', hm'⟩ := List.mem_flatMap.mp (List.mem_dedup.mp hba)
  exact lt_asymm (lt_of_mem_pairsOf_sorted (h g hg) hm)
    (lt_of_mem_pairsOf_sorted (h g' hg') hm')

/-- C1, witness for the amended statement, on a sorted concrete stream. -/
theorem c1_canonical_of_sorted_witness :
    (5, 7) ∈ pairKeys tinyStream ∧ (7, 5) ∉ pairKeys tinyStream :=
  ⟨by decide, c1_canonical_of_sorted tinyStream (by decide) 5 7 (by decide)⟩

/-- C2: in a grouped stream, an order run holding n distinct items (its
item list has no duplicates) contributes exactly n*(n-1)/2 pairs, and a
run with 0 or 1 items contributes no pairs. -/
theorem c2_pairs_per_order (s : List Row) (hs : Grouped s) (g : ℕ × List ℕ)
    (hg : g ∈ groupRuns s) (hd : g.2.Nodup) :
    (pairsOf g.2).length = g.2.dedup.length * (g.2.dedup.length - 1) / 2 ∧
      (g.2.dedup.length ≤ 1 → pairsOf g.2 = []) := by
  have hdl : g.2.dedup = g.2 := List.dedup_eq_self.mpr hd
  rw [hdl]
  exact ⟨by rw [length_pairsOf, Nat.choose_two_right],
    fun hl => pairsOf_eq_nil_of_short hl⟩

/-- C2, witness: the three-item order of the sample stream contributes
3*(3-1)/2 = 3 pairs. -/
theorem c2_pairs_per_order_witness :
    (pairsOf [1, 2, 3]).length =
      ([1, 2, 3] : List ℕ).dedup.length * (([1, 2, 3] : List ℕ).dedup.length - 1) / 2 :=
  (c2_pairs_per_order sampleStream (by decide) (1, [1, 2, 3]) (by decide) (by decide)).1

/-- C3: pair support is freqAB over the qualifying-order count (the number
of orders surviving the stage-A.5 size filter, not the raw order count)
times 100; stage B retains exactly the counted pairs whose support is at
least min_support (inclusive, so the exact-boundary pair is retained);
every output record carries such a support. -/
theorem c3_pair_support (s : List Row) (ms : ℚ) :
    (∀ p, pairSupport (filteredStream s ms) (qualifyingCount s ms) p =
        (pairFreq (filteredStream s ms) p : ℚ) / (qualifyingCount s ms : ℚ) * 100) ∧
      qualifyingCount s ms = (qualifyingOrders (pruneItems s ms)).length ∧
      (∀ p, p ∈ prunedPairKeys (filteredStream s ms) (qualifyingCount s ms) ms ↔
        p ∈ pairKeys (filteredStream s ms) ∧
          ms ≤ pairSupport (filteredStream s ms) (qualifyingCount s ms) p) ∧
      ∀ r ∈ association_rules s ms, ms ≤ r.supportAB ∧
        r.supportAB = (r.freqAB : ℚ) / (qualifyingCount s ms : ℚ) * 100 := by
  refine ⟨fun p => rfl, rfl, fun p => mem_prunedPairKeys, ?_⟩
  intro r hr
  obtain ⟨p, hp, rfl⟩ := mem_association_rules.mp hr
  exact ⟨(mem_prunedPairKeys.mp hp).2, rfl⟩

/-- C3, witness: on the two-item stream with min_support = 100 the single
pair has support exactly 100 and is retained (inclusive boundary). -/
theorem c3_pair_support_witness :
    (5, 7) ∈ prunedPairKeys (filteredStream tinyStream 100) (qualifyingCount tinyStream 100)
      100 :=
  ((c3_pair_support tinyStream 100).2.2.1 (5, 7)).mpr
    ⟨by rw [tiny_filtered]; decide,
      by rw [tiny_filtered, tiny_qc, tiny_pairSupport]⟩

/-- C4: a pair surviving stage B has both members present in the
re-derived item statistics with frequency at least 1, hence with strictly
positive support: the confidence and lift divisions never divide by
zero. -/
theorem c4_no_zero_divisors (s : List Row) (ms : ℚ) (p : ℕ × ℕ)
    (hp : p ∈ prunedPairKeys (filteredStream s ms) (qualifyingCount s ms) ms) :
    p.1 ∈ itemKeys (filteredStream s ms) ∧ p.2 ∈ itemKeys (filteredStream s ms) ∧
      1 ≤ itemFreq (filteredStream s ms) p.1 ∧ 1 ≤ itemFreq (filteredStream s ms) p.2 ∧
      0 < itemSupport (filteredStream s ms) p.1 ∧
      0 < itemSupport (filteredStream s ms) p.2 := by
  have hk := mem_itemKeys_of_mem_pairKeys (mem_prunedPairKeys.mp hp).1
  exact ⟨hk.1, hk.2, itemFreq_pos_of_mem_itemKeys hk.1, itemFreq_pos_of_mem_itemKeys hk.2,
    itemSupport_pos hk.1, itemSupport_pos hk.2⟩

/-- C4, witness: on the two-item stream the surviving pair has positive
member supports. -/
theorem c4_no_zero_divisors_witness :
    0 < itemSupport (filteredStream tinyStream 100) 5 ∧
      0 < itemSupport (filteredStream tinyStream 100) 7 :=
  have h := c4_no_zero_divisors tinyStream 100 (5, 7)
    (by rw [tiny_filtered, tiny_qc, tiny_pruned]; decide)
  ⟨h.2.2.2.2.1, h.2.2.2.2.2⟩

/-- C5: every output record's lift field equals supportAB divided by the
product supportA * supportB, and the lift formula is symmetric in the two
members: swapping the roles of A and B leaves the value unchanged. -/
theorem c5_lift_symmetric (s : List Row) (ms : ℚ) (r : Rule)
    (hr : r ∈ association_rules s ms) :
    r.lift = r.supportAB / (r.supportA * r.supportB) ∧
      liftMetric r.supportAB r.supportA r.supportB =
        liftMetric r.supportAB r.supportB r.supportA := by
  obtain ⟨p, hp, rfl⟩ := mem_association_rules.mp hr
  exact ⟨rfl, by rw [liftMetric, liftMetric, mul_comm]⟩

/-- C5, witness: the single output record of the two-item stream. -/
theorem c5_lift_symmetric_witness :
    (mkRule tinyStream 1 (5, 7)).lift =
      (mkRule tinyStream 1 (5, 7)).supportAB /
        ((mkRule tinyStream 1 (5, 7)).supportA * (mkRule tinyStream 1 (5, 7)).supportB) :=
  (c5_lift_symmetric tinyStream 100 (mkRule tinyStream 1 (5, 7))
    (by rw [tiny_rules]; exact List.mem_singleton.mpr rfl)).1

/-- C6: for every output record, confidenceAtoB * supportA and
confidenceBtoA * supportB are both exactly supportAB, hence equal to each
other; as the development works in exact rational arithmetic the equality
is exact. -/
theorem c6_confidence_products (s : List Row) (ms : ℚ) (r : Rule)
    (hr : r ∈ association_rules s ms) :
    r.confidenceAtoB * r.supportA = r.supportAB ∧
      r.confidenceBtoA * r.supportB = r.supportAB ∧
      r.confidenceAtoB * r.supportA = r.confidenceBtoA * r.supportB := by
  obtain ⟨p, hp, rfl⟩ := mem_association_rules.mp hr
  have hk := mem_itemKeys_of_mem_pairKeys (mem_prunedPairKeys.mp hp).1
  have ha := (itemSupport_pos hk.1).ne'
  have hb := (itemSupport_pos hk.2).ne'
  simp only [mkRule]
  refine ⟨div_mul_cancel₀ _ ha, div_mul_cancel₀ _ hb, ?_⟩
  rw [div_mul_cancel₀ _ ha, div_mul_cancel₀ _ hb]

/-- C6, witness: the single output record of the two-item stream. -/
theorem c6_confidence_products_witness :
    (mkRule tinyStream 1 (5, 7)).confidenceAtoB * (mkRule tinyStream 1 (5, 7)).supportA =
      (mkRule tinyStream 1 (5, 7)).supportAB :=
  (c6_confidence_products tinyStream 100 (mkRule tinyStream 1 (5, 7))
    (by rw [tiny_rules]; exact List.mem_singleton.mpr rfl)).1

/-- C7: the claim states the intended no-error behavior, but the code
errors on exactly those inputs: when the pipeline counts zero pairs (the
empty stream, and a stream where no order survives the size filter) the
merge step raises KeyError on column item_A instead of returning an
empty rule set.  The raise happens precisely when the generator yields
no pair; a counted-but-all-pruned pair table still flows through to an
empty rule set without error. -/
theorem c7_zero_pairs_raise :
    association_rulesE [] 0 = none ∧
      association_rulesE singleStream 0 = none ∧
      association_rulesE triangleStream 60 = some [] ∧
      ∀ (s : List Row) (ms : ℚ),
        association_rulesE s ms = none ↔ get_item_pairs (filteredStream s ms) = [] := by
  refine ⟨rfl, ?_, ?_, ?_⟩
  · show (merge_item_statsE (filteredStream singleStream 0) (qualifyingCount singleStream 0)
        (pairKeys (filteredStream singleStream 0))
        (prunedPairKeys (filteredStream singleStream 0) (qualifyingCount singleStream 0)
          0)).map sortByLiftDesc = none
    rw [single_filtered]
    rfl
  · show (merge_item_statsE (filteredStream triangleStream 60)
        (qualifyingCount triangleStream 60) (pairKeys (filteredStream triangleStream 60))
        (prunedPairKeys (filteredStream triangleStream 60) (qualifyingCount triangleStream 60)
          60)).map sortByLiftDesc = some []
    rw [tri_filtered, tri_qc, tri_pruned, merge_item_statsE,
      if_neg (by decide : ¬pairKeys triangleStream = [])]
    show some (sortByLiftDesc (merge_item_stats triangleStream 3 [])) = some []
    rw [show merge_item_stats triangleStream 3 [] = [] from rfl, sortByLiftDesc,
      List.mergeSort_nil]
  · intro s ms
    have hiff : pairKeys (filteredStream s ms) = [] ↔
        get_item_pairs (filteredStream s ms) = [] :=
      List.dedup_eq_nil (get_item_pairs (filteredStream s ms))
    show (merge_item_statsE (filteredStream s ms) (qualifyingCount s ms)
        (pairKeys (filteredStream s ms))
        (prunedPairKeys (filteredStream s ms) (qualifyingCount s ms) ms)).map
          sortByLiftDesc = none ↔ get_item_pairs (filteredStream s ms) = []
    rw [merge_item_statsE]
    by_cases h : pairKeys (filteredStream s ms) = []
    · rw [if_pos h]
      exact iff_of_true rfl (hiff.mp h)
    · rw [if_neg h]
      exact iff_of_false (by simp) (fun hc => h (hiff.mpr hc))

/-- C8: the two branches of freq agree: reading the Counter-branch tally
and the value_counts-branch tally at any key produces the same count,
namely the number of occurrences of that key, independent of input order;
the pipeline's item frequency is this common count on the item column. -/
theorem c8_freq_branches_agree {K : Type} [DecidableEq K] (l l' : List K)
    (hperm : l.Perm l') (k : K) :
    lookupCount (counterOf l) k = lookupCount (value_counts l) k ∧
      lookupCount (counterOf l) k = l.count k ∧
      lookupCount (counterOf l) k = lookupCount (counterOf l') k ∧
      ∀ (s : List Row) (i : ℕ),
        itemFreq s i = lookupCount (counterOf (s.map Prod.snd)) i ∧
          itemFreq s i = lookupCount (value_counts (s.map Prod.snd)) i := by
  refine ⟨?_, lookupCount_counterOf l k, ?_, ?_⟩
  · rw [lookupCount_counterOf, lookupCount_value_counts]
  · rw [lookupCount_counterOf, lookupCount_counterOf]
    exact hperm.count_eq k
  · intro s i
    exact ⟨(lookupCount_counterOf _ _).symm, (lookupCount_value_counts _ _).symm⟩

/-- C8, witness: both branches count the key 2 twice in a concrete
three-element sequence and its permutation. -/
theorem c8_freq_branches_agree_witness :
    lookupCount (counterOf [1, 2, 2]) 2 = ([1, 2, 2] : List ℕ).count 2 :=
  (c8_freq_branches_agree [1, 2, 2] [2, 1, 2] (List.Perm.swap 2 1 [2]) 2).2.1

/-- C9: the returned rule sequence is sorted by lift descending: every
record's lift is at least the lift of every later record, ties
unconstrained. -/
theorem c9_sorted_by_lift (s : List Row) (ms : ℚ) :
    (association_rules s ms).Sorted (fun a b => b.lift ≤ a.lift) := by
  rw [association_rules_eq]
  exact sortByLiftDesc_sorted _

/-- C10: the distinct order ids of the stream surviving both pruning
stages are exactly the qualifying orders, so the order count used as the
denominator of the re-derived item support equals the qualifying-order
count used as the denominator of pair support. -/
theorem c10_same_denominator (s : List Row) (ms : ℚ) :
    (∀ o, o ∈ (filteredStream s ms).map Prod.fst ↔
        o ∈ qualifyingOrders (pruneItems s ms)) ∧
      order_count (filteredStream s ms) = qualifyingCount s ms :=
  ⟨fun _ => mem_fst_pruneOrders, order_count_pruneOrders _⟩

/-- C10, witness: on the two-item stream both denominators are 1. -/
theorem c10_same_denominator_witness :
    order_count (filteredStream tinyStream 100) = qualifyingCount tinyStream 100 :=
  (c10_same_denominator tinyStream 100).2

end Instacart
